import Mathlib

/-!
# Verification of the binance_bot order-lifecycle engine

Shallow embedding of the trading bot's core state (`execution.py`,
`strategy.py`, `risk_management.py`, call sites in `main.py`) and proofs of
the specification's claims about it.

Modelling conventions:
* Python floats for prices/amounts/quantities are modelled as `ℚ`
  (the claims are about algebraic structure, and every concrete number in
  the spec is exactly representable).
* `datetime` values are modelled as `ℚ` instants; comparisons mirror the
  source's `<` comparisons.
* Python dicts keyed by symbol are modelled as lists of keys (or key/value
  pairs) in insertion order; `d[k] = v` on a fresh key appends, on an
  existing key updates in place — mirroring CPython dict semantics.
* Exchange / database I/O results are inputs (environment records); the
  embedding models the executions in which the exchange answers and the
  database commits.  `place_tp_sl_orders` converts all of its own
  exceptions into a `False` return in the source, which is modelled by a
  boolean environment field.
-/

namespace BinanceBot

/-- One row appended to the `trades` table (`database.Trade`), restricted to
the fields the claims mention. -/
structure TradeRecord where
  action : String
  symbol : String
  price : ℚ
  quantity : ℚ
  realized_pnl : ℚ
  deriving DecidableEq, Repr

/-- In-memory state owned by `ExecutionEngine` (`execution.py`,
`ExecutionEngine.__init__`): the halt flag, the keys of the
`pending_entries` dict, the keys of the `active_positions` dict, the
`loss_cooldown` dict (symbol ↦ expiry instant), plus the append-only list
of `TradeRecord`s written to the database. -/
structure EngineState where
  is_halted : Bool
  pending_entries : List String
  active_positions : List String
  loss_cooldown : List (String × ℚ)
  records : List TradeRecord
  deriving DecidableEq, Repr

/-- `ExecutionEngine.__init__`: halt flag false, all maps empty. -/
def initState : EngineState :=
  { is_halted := false
    pending_entries := []
    active_positions := []
    loss_cooldown := []
    records := [] }

/-- `d[s] = True` on a dict of symbols: append the key if new, otherwise
leave the key list unchanged. -/
def insertSym (s : String) (l : List String) : List String :=
  if s ∈ l then l else l ++ [s]

/-- `del d[s]` / removal of a key. -/
def eraseSym (s : String) (l : List String) : List String :=
  l.filter (fun x => x ≠ s)

/-- `self.loss_cooldown.get(symbol)`. -/
def lookupCooldown (l : List (String × ℚ)) (s : String) : Option ℚ :=
  (l.find? (fun p => p.1 = s)).map (fun p => p.2)

/-- `self.loss_cooldown[symbol] = t` (update in place, append if new). -/
def setCooldown (l : List (String × ℚ)) (s : String) (t : ℚ) :
    List (String × ℚ) :=
  if l.any (fun p => p.1 = s) then
    l.map (fun p => if p.1 = s then (p.1, t) else p)
  else l ++ [(s, t)]

/-- The loss-cooldown guard in `place_market_entry_order`:
`cooldown_until and utcnow() < cooldown_until`. -/
def cooldownActive (st : EngineState) (now : ℚ) (symbol : String) : Bool :=
  match lookupCooldown st.loss_cooldown symbol with
  | some t => now < t
  | none => false

/-- Externally visible exchange interactions emitted by the engine
operations (used to state ordering / "no order submitted" properties). -/
inductive ExchangeAction where
  | createMarketOrder (symbol side : String) (amount : ℚ)
  | trackPosition (symbol : String)
  | invokeTpSl (symbol : String)
  | cancelOrder (symbol id : String)
  | cancelAlgoOrder (rawSymbol algoId : String)
  deriving DecidableEq, Repr

/-- Environment for one `place_market_entry_order` call: the dry-run flag,
the clock, the exchange's answers (filled order's `average`/`price` field,
the last own-trade price if any, the ticker under dry-run), the price
rounding used by `price_to_precision`, and whether the TP/SL submissions in
`place_tp_sl_orders` all succeed (that function catches every exception it
raises internally and returns `False` instead). -/
structure EntryEnv where
  dry_run : Bool
  now : ℚ
  order_avg : ℚ
  my_trades_last : Option ℚ
  ticker_last : ℚ
  round_price : ℚ → ℚ
  tp_sl_ok : Bool

/-- Fill-price resolution in `place_market_entry_order`: non-dry-run reads
`filled_order.get("average", .get("price", 0.0))` and, if that is `0.0`,
falls back to the last entry of `fetch_my_trades` (staying `0.0` when there
are none); dry-run uses the ticker's `last`. -/
def resolveAvgPrice (env : EntryEnv) : ℚ :=
  if env.dry_run then env.ticker_last
  else if env.order_avg = 0 then
    match env.my_trades_last with
    | some p => p
    | none => 0
  else env.order_avg

/-- `ExecutionEngine.place_tp_sl_orders` (state effects only): always writes
the entry `TradeRecord` first, then — on the dry-run path or when every
TP/SL submission (including the algo-endpoint fallbacks) succeeds — sets
`active_positions[symbol] = True` and returns `True`; when a submission
error escapes to its outer `except`, returns `False` with no further state
change.  The fee/R:R arithmetic is log-only and not modelled. -/
def place_tp_sl_orders (st : EngineState) (env : EntryEnv)
    (symbol signal : String) (amount entry_price : ℚ) :
    Bool × EngineState :=
  let st1 := { st with
    records := st.records ++ [⟨signal, symbol, entry_price, amount, 0⟩] }
  if env.dry_run then
    (true, { st1 with active_positions := insertSym symbol st1.active_positions })
  else if env.tp_sl_ok then
    (true, { st1 with active_positions := insertSym symbol st1.active_positions })
  else
    (false, st1)

/-- `ExecutionEngine.place_market_entry_order`: the three guards (halt flag,
existing active position, unexpired loss cooldown) reject with `False`
before any exchange call; otherwise the market order is submitted (non
dry-run), the fill price resolved, a non-positive resolved price returns
`False`; otherwise the symbol is inserted into `active_positions`
(the `[HOTFIX]` line) before `place_tp_sl_orders` is awaited, and `True`
is returned regardless of the latter's result.
Returns (return value, new state, emitted actions). -/
def place_market_entry_order (st : EngineState) (env : EntryEnv)
    (symbol side : String) (amount tp_dist sl_dist : ℚ) :
    Bool × EngineState × List ExchangeAction :=
  if st.is_halted then (false, st, [])
  else if symbol ∈ st.active_positions then (false, st, [])
  else if cooldownActive st env.now symbol then (false, st, [])
  else
    let entryActions : List ExchangeAction :=
      if env.dry_run then [] else [.createMarketOrder symbol side amount]
    let average_price := resolveAvgPrice env
    if average_price ≤ 0 then (false, st, entryActions)
    else
      let signal_type := if side = "buy" then "LONG" else "SHORT"
      let raw_tp := if signal_type = "LONG" then average_price + tp_dist
                    else average_price - tp_dist
      let raw_sl := if signal_type = "LONG" then average_price - sl_dist
                    else average_price + sl_dist
      let _tp_price := env.round_price raw_tp
      let _sl_price := env.round_price raw_sl
      let st1 := { st with active_positions := insertSym symbol st.active_positions }
      let r := place_tp_sl_orders st1 env symbol signal_type amount average_price
      (true, r.2, entryActions ++ [.trackPosition symbol, .invokeTpSl symbol])

/-- `ExecutionEngine.cancel_pending_order`: no-op `False` when the symbol is
not pending; otherwise cancels the tracked order, writes a CANCELED record
and deletes the pending entry (also on the "Unknown order" error path). -/
def cancel_pending_order (st : EngineState) (symbol : String)
    (limit_price amount : ℚ) : Bool × EngineState :=
  if symbol ∈ st.pending_entries then
    (true, { st with
      pending_entries := eraseSym symbol st.pending_entries
      records := st.records ++ [⟨"CANCELED", symbol, limit_price, amount, 0⟩] })
  else (false, st)

/-- One exchange-reported position (`fetch_positions` entry). -/
structure PosInfo where
  symbol : String
  contracts : ℚ
  entryPrice : ℚ
  side : String
  deriving DecidableEq, Repr

/-- The `position_map` dict comprehension in `check_active_positions_state`:
`{p["symbol"]: float(p.get("contracts", 0)) for p in positions}` — a later
entry for the same symbol overwrites, missing symbols default to `0.0`. -/
def posLookup (ps : List PosInfo) (s : String) : ℚ :=
  ps.foldl (fun acc p => if p.symbol = s then p.contracts else acc) 0

/-- Environment for one reconciliation call: the dry-run flag, the clock,
the configured `LOSS_COOLDOWN_MINUTES`, and `fetch_my_trades`' answer per
symbol as (close price, close quantity, realized PnL) — `(0,0,0)` when the
trade list is empty. -/
structure ReconEnv where
  dry_run : Bool
  now : ℚ
  cooldown_min : ℚ
  closeInfo : String → ℚ × ℚ × ℚ

/-- First loop of `check_active_positions_state` (non dry-run): every
exchange position with `contracts > 0` whose symbol is not yet tracked is
inserted into `active_positions` and recorded as MANUAL. -/
def manualStep (st : EngineState) (p : PosInfo) : EngineState :=
  if 0 < p.contracts ∧ p.symbol ∉ st.active_positions then
    { st with
      active_positions := st.active_positions ++ [p.symbol]
      records := st.records ++ [⟨"MANUAL", p.symbol, p.entryPrice, p.contracts, 0⟩] }
  else st

/-- The full first loop: fold `manualStep` over the exchange's positions. -/
def manualSweep (st : EngineState) (ps : List PosInfo) : EngineState :=
  ps.foldl manualStep st

/-- Body of the second loop of `check_active_positions_state` for one
tracked symbol, threading (state, symbols_to_remove): dry-run always writes
a virtual CLOSED record and marks the symbol for removal; otherwise a
symbol whose exchange contract count is `0` has its residual orders
cancelled (exchange-side only), gets a CLOSED record with the realized PnL
read back from `fetch_my_trades`, arms the loss cooldown when that PnL is
negative, and is marked for removal. -/
def closedStep (ps : List PosInfo) (env : ReconEnv)
    (acc : EngineState × List String) (symbol : String) :
    EngineState × List String :=
  let st := acc.1
  if env.dry_run then
    ({ st with records := st.records ++ [⟨"CLOSED", symbol, 0, 0, 0⟩] },
     acc.2 ++ [symbol])
  else if posLookup ps symbol = 0 then
    let info := env.closeInfo symbol
    let st1 := { st with
      records := st.records ++ [⟨"CLOSED", symbol, info.1, info.2.1, info.2.2⟩] }
    let st2 :=
      if info.2.2 < 0 then
        { st1 with loss_cooldown :=
            setCooldown st1.loss_cooldown symbol (env.now + env.cooldown_min) }
      else st1
    (st2, acc.2 ++ [symbol])
  else acc

/-- `ExecutionEngine.check_active_positions_state`: dry-run returns
immediately when nothing is tracked, else virtually closes every tracked
symbol; non dry-run runs the manual-detection sweep over the exchange's
positions, then the closed-position sweep over (a snapshot of) the tracked
symbols, and finally deletes the collected symbols from tracking. -/
def check_active_positions_state (st : EngineState) (env : ReconEnv)
    (ps : List PosInfo) : EngineState :=
  if env.dry_run then
    if st.active_positions = [] then st
    else
      let r := st.active_positions.foldl (closedStep ps env) (st, [])
      { r.1 with active_positions :=
          r.1.active_positions.filter (fun s => s ∉ r.2) }
  else
    let st1 := manualSweep st ps
    let r := st1.active_positions.foldl (closedStep ps env) (st1, [])
    { r.1 with active_positions :=
        r.1.active_positions.filter (fun s => s ∉ r.2) }

/-- `ExecutionEngine.check_state_mismatch`: fetches the balance and the
positions, binds them to locals, and does nothing else (`pass` — the
mismatch defence is an explicit future-work stub).  The engine state is
returned unchanged whatever the balance reads. -/
def check_state_mismatch (st : EngineState) (usdt_total : ℚ)
    (ps : List PosInfo) : EngineState :=
  let _active_open := ps.filter (fun p => 0 < p.contracts)
  let _usdt := usdt_total
  st

/-- One account-wide open order as seen by `fetch_open_orders`, with the
`reduceOnly` attribute already decoded by the source's string/info
normalisation (a boolean `True` stringifies to `"true"`, anything else
falls through to the `info` fallback and then to `False`). -/
structure OpenOrder where
  symbol : String
  id : String
  reduceOnly : Bool
  deriving DecidableEq, Repr

/-- One conditional (algo-channel) order from `openAlgoOrders`, keyed by the
exchange's raw symbol representation. -/
structure AlgoOrder where
  rawSymbol : String
  algoId : String
  reduceOnly : Bool
  deriving DecidableEq, Repr

/-- Position-recovery phase of `sync_state_from_exchange`: every
exchange-reported position with `contracts > 0` is inserted into
`active_positions`. -/
def recoverActive (active : List String) (ps : List PosInfo) : List String :=
  ps.foldl (fun l p => if 0 < p.contracts then insertSym p.symbol l else l) active

/-- The raw-symbol matching in the algo sweep:
`ap_sym.replace("/", "").split(":")[0] == raw_binance_symbol` for some
tracked symbol. -/
def algoMatchesActive (active : List String) (raw : String) : Bool :=
  active.any (fun s => ((s.replace "/" "").splitOn ":").headD "" = raw)

/-- `ExecutionEngine.sync_state_from_exchange`: dry-run returns untouched;
otherwise (1) recovers `active_positions` from live contracts, (2) sweeps
all account-wide open orders, keeping an order only when its symbol is
tracked *and* it is reduce-only, cancelling every other order, and (3) the
same for the algo-order channel with raw-symbol matching.
Returns (new state, emitted cancel actions). -/
def sync_state_from_exchange (st : EngineState) (dry_run : Bool)
    (ps : List PosInfo) (orders : List OpenOrder) (algos : List AlgoOrder) :
    EngineState × List ExchangeAction :=
  if dry_run then (st, [])
  else
    let active := recoverActive st.active_positions ps
    let cancels :=
      (orders.filter (fun o => ¬(o.symbol ∈ active ∧ o.reduceOnly = true))).map
        (fun o => ExchangeAction.cancelOrder o.symbol o.id)
    let algoCancels :=
      (algos.filter
        (fun a => ¬(algoMatchesActive active a.rawSymbol = true ∧ a.reduceOnly = true))).map
        (fun a => ExchangeAction.cancelAlgoOrder a.rawSymbol a.algoId)
    ({ st with active_positions := active }, cancels ++ algoCancels)

/-- `_time_exit_daemon` wake-up: if the symbol is still tracked, cancels its
residual orders, force-exits at market, writes a TIME_EXIT record and
removes the symbol from tracking; otherwise does nothing. -/
def time_exit_step (st : EngineState) (symbol : String) (amount : ℚ) :
    EngineState :=
  if symbol ∈ st.active_positions then
    { st with
      active_positions := eraseSym symbol st.active_positions
      records := st.records ++ [⟨"TIME_EXIT", symbol, 0, amount, 0⟩] }
  else st

/-- The engine-state effect of one chandelier-exit trigger in
`main.chandelier_monitoring_loop`: the symbol is deleted from
`execution.active_positions` when present. -/
def chandelier_close_step (st : EngineState) (symbol : String) : EngineState :=
  { st with active_positions := eraseSym symbol st.active_positions }

/-- One engine transition: every code path in the repository that mutates
`ExecutionEngine`'s in-memory state (the telegram `/panic` handler cancels
orders exchange-side and flips `settings.IS_PAUSED` but never touches this
state, so it contributes no transition). -/
inductive Step : EngineState → EngineState → Prop
  | placeEntry (st : EngineState) (env : EntryEnv) (symbol side : String)
      (amount tp_dist sl_dist : ℚ) :
      Step st (place_market_entry_order st env symbol side amount tp_dist sl_dist).2.1
  | cancelPending (st : EngineState) (symbol : String) (limit_price amount : ℚ) :
      Step st (cancel_pending_order st symbol limit_price amount).2
  | checkActive (st : EngineState) (env : ReconEnv) (ps : List PosInfo) :
      Step st (check_active_positions_state st env ps)
  | checkMismatch (st : EngineState) (usdt_total : ℚ) (ps : List PosInfo) :
      Step st (check_state_mismatch st usdt_total ps)
  | sync (st : EngineState) (dry_run : Bool) (ps : List PosInfo)
      (orders : List OpenOrder) (algos : List AlgoOrder) :
      Step st (sync_state_from_exchange st dry_run ps orders algos).1
  | timeExit (st : EngineState) (symbol : String) (amount : ℚ) :
      Step st (time_exit_step st symbol amount)
  | chandelierClose (st : EngineState) (symbol : String) :
      Step st (chandelier_close_step st symbol)

/-- States reachable from process start. -/
def Reachable (st : EngineState) : Prop :=
  Relation.ReflTransGen Step initState st

/-! ## Trailing stop (`strategy.PortfolioState`) -/

/-- One entry of `PortfolioState.positions`. -/
structure ChandelierPos where
  direction : String
  entry_price : ℚ
  extreme : ℚ
  chandelier_stop : ℚ
  atr : ℚ
  deriving DecidableEq, Repr

/-- `PortfolioState.register_position` (value stored for the symbol):
extreme starts at the entry price and the initial stop offsets it by
`atr * CHANDELIER_MULT` (down for LONG, up otherwise). -/
def register_position (mult : ℚ) (direction : String) (entry_price atr : ℚ) :
    ChandelierPos :=
  if direction = "LONG" then
    ⟨direction, entry_price, entry_price, entry_price - atr * mult, atr⟩
  else
    ⟨direction, entry_price, entry_price, entry_price + atr * mult, atr⟩

/-- `PortfolioState.update_chandelier` on one tracked position: LONG raises
the extreme on a higher high and takes `max(extreme - atr*mult, prev_stop)`;
the other branch lowers the extreme on a lower low and takes
`min(extreme + atr*mult, prev_stop)`; the stored ATR is refreshed. -/
def update_chandelier (mult : ℚ) (pos : ChandelierPos)
    (current_high current_low current_atr : ℚ) : ChandelierPos :=
  if pos.direction = "LONG" then
    let extreme := if pos.extreme < current_high then current_high else pos.extreme
    let new_stop := extreme - current_atr * mult
    { pos with
      extreme := extreme
      chandelier_stop := max new_stop pos.chandelier_stop
      atr := current_atr }
  else
    let extreme := if current_low < pos.extreme then current_low else pos.extreme
    let new_stop := extreme + current_atr * mult
    { pos with
      extreme := extreme
      chandelier_stop := min new_stop pos.chandelier_stop
      atr := current_atr }

/-- The stop values returned by successive `update_chandelier` calls over a
list of (high, low, atr) candles. -/
def chandelierTrace (mult : ℚ) (pos : ChandelierPos)
    (candles : List (ℚ × ℚ × ℚ)) : List ℚ :=
  match candles with
  | [] => []
  | c :: rest =>
    let pos' := update_chandelier mult pos c.1 c.2.1 c.2.2
    pos'.chandelier_stop :: chandelierTrace mult pos' rest

/-! ## Position sizing (`risk_management.RiskManager`) -/

/-- Result dict of `RiskManager.calculate_position_size`. -/
structure SizingResult where
  size : ℚ
  invest_usdt : ℚ
  min_notional_applied : Bool
  deriving DecidableEq, Repr

/-- The zero result returned on every rejection path. -/
def zeroSizing : SizingResult := ⟨0, 0, false⟩

/-- `RiskManager.calculate_position_size(symbol, capital, entry_price)`:
rejects non-positive capital or price; computes the leveraged notional
`capital * risk_pct * leverage`, lifts it to the hard-coded
`min_order_usdt = 5.5` floor when below it, rejects outright when even that
target exceeds `capital * leverage`, converts to a quantity at the entry
price, rounds it with `amount_to_precision` (`round_amt`; the identity on
the exception-fallback path), rejects a non-positive rounded quantity, and
reports the invested margin `size * entry_price / leverage`. -/
def calculate_position_size (risk_pct leverage : ℚ) (round_amt : ℚ → ℚ)
    (capital entry_price : ℚ) : SizingResult :=
  if capital ≤ 0 ∨ entry_price ≤ 0 then zeroSizing
  else
    let base_notional := capital * risk_pct * leverage
    let min_order_usdt : ℚ := 11 / 2
    let applied := decide (base_notional < min_order_usdt)
    let target_notional :=
      if base_notional < min_order_usdt then min_order_usdt else base_notional
    if capital * leverage < target_notional then zeroSizing
    else
      let raw_size := target_notional / entry_price
      let position_size := round_amt raw_size
      if position_size ≤ 0 then zeroSizing
      else
        { size := position_size
          invest_usdt := position_size * entry_price / leverage
          min_notional_applied := applied }

/-- The margin formula claimed by the spec for the sizing operation
(refinement target, written from the spec's words, *not* from the source):
capital × risk fraction, clamped below to min-notional / leverage and above
to 95% of capital. -/
def specMarginClaim (risk_fraction leverage min_notional capital : ℚ) : ℚ :=
  min (max (capital * risk_fraction) (min_notional / leverage))
    (95 / 100 * capital)

/-- Keys of the dict literal returned by
`RiskManager.calculate_position_size` (`risk_management.py`). -/
def sizingResultKeys : List String :=
  ["size", "invest_usdt", "min_notional_applied"]

/-- Keys that `process_closed_kline` (`main.py`) reads from the sizing
result: `sizing["size"]`, `sizing["tp_dist"]`, `sizing["sl_dist"]`. -/
def sizingKeysReadByCaller : List String :=
  ["size", "tp_dist", "sl_dist"]

/-- Parameter names of `RiskManager.calculate_position_size` besides
`self`. -/
def sizingParams : List String := ["symbol", "capital", "entry_price"]

/-- Positional arguments passed at the `risk.calculate_position_size(...)`
call site in `process_closed_kline` (`main.py`). -/
def sizingArgsAtCallSite : List String :=
  ["symbol", "capital", "market_price", "atr_val"]

/-! ## Helper lemmas -/

theorem mem_insertSym {a s : String} {l : List String} :
    a ∈ insertSym s l ↔ a ∈ l ∨ a = s := by
  unfold insertSym
  split_ifs with h
  · constructor
    · exact Or.inl
    · rintro (h' | rfl)
      · exact h'
      · exact h
  · simp [List.mem_append]

theorem insertSym_nodup {s : String} {l : List String} (h : l.Nodup) :
    (insertSym s l).Nodup := by
  unfold insertSym
  split_ifs with hm
  · exact h
  · simp [List.nodup_append, h, hm]

theorem insertSym_of_mem {s : String} {l : List String} (h : s ∈ l) :
    insertSym s l = l := by
  unfold insertSym
  simp [h]

theorem self_mem_insertSym {s : String} {l : List String} :
    s ∈ insertSym s l := mem_insertSym.mpr (Or.inr rfl)

theorem eraseSym_nodup {s : String} {l : List String} (h : l.Nodup) :
    (eraseSym s l).Nodup := List.Nodup.filter _ h

theorem insertSym_idem {s : String} {l : List String} :
    insertSym s (insertSym s l) = insertSym s l :=
  insertSym_of_mem self_mem_insertSym

theorem place_market_state_facts (st : EngineState) (env : EntryEnv)
    (symbol side : String) (amount tp_dist sl_dist : ℚ) :
    (place_market_entry_order st env symbol side amount tp_dist sl_dist).2.1.pending_entries
        = st.pending_entries ∧
    (place_market_entry_order st env symbol side amount tp_dist sl_dist).2.1.is_halted
        = st.is_halted ∧
    (place_market_entry_order st env symbol side amount tp_dist sl_dist).2.1.loss_cooldown
        = st.loss_cooldown ∧
    ((place_market_entry_order st env symbol side amount tp_dist sl_dist).2.1.active_positions
        = st.active_positions ∨
      (place_market_entry_order st env symbol side amount tp_dist sl_dist).2.1.active_positions
        = insertSym symbol st.active_positions) := by
  unfold place_market_entry_order place_tp_sl_orders
  dsimp only
  split_ifs <;> simp [insertSym_idem]

theorem closedStep_state_facts (ps : List PosInfo) (env : ReconEnv)
    (acc : EngineState × List String) (s : String) :
    (closedStep ps env acc s).1.active_positions = acc.1.active_positions ∧
    (closedStep ps env acc s).1.pending_entries = acc.1.pending_entries ∧
    (closedStep ps env acc s).1.is_halted = acc.1.is_halted ∧
    acc.1.records <+: (closedStep ps env acc s).1.records := by
  unfold closedStep
  dsimp only
  split_ifs <;> simp

theorem closedFold_state_facts (ps : List PosInfo) (env : ReconEnv)
    (l : List String) (acc : EngineState × List String) :
    (l.foldl (closedStep ps env) acc).1.active_positions = acc.1.active_positions ∧
    (l.foldl (closedStep ps env) acc).1.pending_entries = acc.1.pending_entries ∧
    (l.foldl (closedStep ps env) acc).1.is_halted = acc.1.is_halted ∧
    acc.1.records <+: (l.foldl (closedStep ps env) acc).1.records := by
  induction l generalizing acc with
  | nil => simp
  | cons s l ih =>
    obtain ⟨h1, h2, h3, h4⟩ := closedStep_state_facts ps env acc s
    obtain ⟨g1, g2, g3, g4⟩ := ih (closedStep ps env acc s)
    exact ⟨by rw [List.foldl_cons, g1, h1], by rw [List.foldl_cons, g2, h2],
      by rw [List.foldl_cons, g3, h3], h4.trans (by simpa using g4)⟩

theorem closedStep_rm (ps : List PosInfo) (env : ReconEnv)
    (acc : EngineState × List String) (s : String) (hdry : env.dry_run = false) :
    (closedStep ps env acc s).2
      = acc.2 ++ if posLookup ps s = 0 then [s] else [] := by
  unfold closedStep
  dsimp only
  rw [hdry]
  split_ifs <;> simp_all

theorem closedFold_rm (ps : List PosInfo) (env : ReconEnv) (l : List String)
    (acc : EngineState × List String) (hdry : env.dry_run = false) :
    (l.foldl (closedStep ps env) acc).2
      = acc.2 ++ l.filter (fun s => posLookup ps s = 0) := by
  induction l generalizing acc with
  | nil => simp
  | cons s l ih =>
    rw [List.foldl_cons, ih (closedStep ps env acc s),
      closedStep_rm ps env acc s hdry]
    by_cases h : posLookup ps s = 0 <;>
      simp [List.filter_cons, h]

theorem closedFold_id (ps : List PosInfo) (env : ReconEnv) (l : List String)
    (acc : EngineState × List String) (hdry : env.dry_run = false)
    (h : ∀ s ∈ l, posLookup ps s ≠ 0) :
    l.foldl (closedStep ps env) acc = acc := by
  induction l generalizing acc with
  | nil => rfl
  | cons s l ih =>
    have hs : closedStep ps env acc s = acc := by
      unfold closedStep
      dsimp only
      rw [hdry]
      simp [h s (by simp)]
    rw [List.foldl_cons, hs]
    exact ih acc (fun x hx => h x (by simp [hx]))

theorem manualSweep_cons (st : EngineState) (p : PosInfo) (ps : List PosInfo) :
    manualSweep st (p :: ps) = manualSweep (manualStep st p) ps := rfl

theorem manualStep_state_facts (st : EngineState) (p : PosInfo) :
    (manualStep st p).pending_entries = st.pending_entries ∧
    (manualStep st p).is_halted = st.is_halted ∧
    (manualStep st p).loss_cooldown = st.loss_cooldown ∧
    st.records <+: (manualStep st p).records := by
  unfold manualStep
  split_ifs <;> simp

theorem manualSweep_state_facts (st : EngineState) (ps : List PosInfo) :
    (manualSweep st ps).pending_entries = st.pending_entries ∧
    (manualSweep st ps).is_halted = st.is_halted ∧
    (manualSweep st ps).loss_cooldown = st.loss_cooldown ∧
    st.records <+: (manualSweep st ps).records := by
  induction ps generalizing st with
  | nil => simp [manualSweep]
  | cons p ps ih =>
    obtain ⟨h1, h2, h3, h4⟩ := manualStep_state_facts st p
    obtain ⟨g1, g2, g3, g4⟩ := ih (manualStep st p)
    exact ⟨by rw [manualSweep_cons, g1, h1], by rw [manualSweep_cons, g2, h2],
      by rw [manualSweep_cons, g3, h3], h4.trans (by simpa using g4)⟩

theorem manualStep_nodup (st : EngineState) (p : PosInfo)
    (h : st.active_positions.Nodup) : (manualStep st p).active_positions.Nodup := by
  unfold manualStep
  split_ifs with hc
  · simp [List.nodup_append, h, hc.2]
  · exact h

theorem manualSweep_nodup (st : EngineState) (ps : List PosInfo)
    (h : st.active_positions.Nodup) : (manualSweep st ps).active_positions.Nodup := by
  induction ps generalizing st with
  | nil => exact h
  | cons p ps ih => exact manualSweep_cons st p ps ▸ ih _ (manualStep_nodup st p h)

theorem mem_manualStep_active {s : String} (st : EngineState) (p : PosInfo) :
    s ∈ (manualStep st p).active_positions ↔
      s ∈ st.active_positions ∨ (p.symbol = s ∧ 0 < p.contracts) := by
  unfold manualStep
  split_ifs with hc
  · constructor
    · intro hmem
      rcases List.mem_append.mp hmem with h | h
      · exact Or.inl h
      · exact Or.inr ⟨(List.mem_singleton.mp h).symm, hc.1⟩
    · rintro (h | ⟨rfl, -⟩)
      · exact List.mem_append.mpr (Or.inl h)
      · exact List.mem_append.mpr (Or.inr (by simp))
  · constructor
    · exact Or.inl
    · rintro (h | ⟨rfl, hpos⟩)
      · exact h
      · exact not_not.mp (not_and.mp hc hpos)

theorem mem_manualSweep_active {s : String} (st : EngineState) (ps : List PosInfo) :
    s ∈ (manualSweep st ps).active_positions ↔
      s ∈ st.active_positions ∨ ∃ p ∈ ps, p.symbol = s ∧ 0 < p.contracts := by
  induction ps generalizing st with
  | nil => simp [manualSweep]
  | cons p ps ih =>
    rw [manualSweep_cons, ih, mem_manualStep_active]
    constructor
    · rintro ((h | h) | ⟨q, hq, hs, hc⟩)
      · exact Or.inl h
      · exact Or.inr ⟨p, by simp, h⟩
      · exact Or.inr ⟨q, by simp [hq], hs, hc⟩
    · rintro (h | ⟨q, hq, hs, hc⟩)
      · exact Or.inl (Or.inl h)
      · rcases List.mem_cons.mp hq with rfl | hq'
        · exact Or.inl (Or.inr ⟨hs, hc⟩)
        · exact Or.inr ⟨q, hq', hs, hc⟩

theorem manualSweep_id (st : EngineState) (ps : List PosInfo)
    (h : ∀ p ∈ ps, 0 < p.contracts → p.symbol ∈ st.active_positions) :
    manualSweep st ps = st := by
  induction ps with
  | nil => rfl
  | cons p ps ih =>
    have hp : manualStep st p = st := by
      unfold manualStep
      split_ifs with hc
      · exact absurd (h p (by simp) hc.1) hc.2
      · rfl
    rw [manualSweep_cons, hp]
    exact ih (fun q hq => h q (by simp [hq]))

theorem posFold_of_not_mem {s : String} {ps : List PosInfo} (a : ℚ)
    (h : ∀ p ∈ ps, p.symbol ≠ s) :
    ps.foldl (fun acc p => if p.symbol = s then p.contracts else acc) a = a := by
  induction ps generalizing a with
  | nil => rfl
  | cons p ps ih =>
    rw [List.foldl_cons, if_neg (h p (by simp)), ih a (fun q hq => h q (by simp [hq]))]

theorem posLookup_eq {ps : List PosInfo} {p : PosInfo}
    (hnd : (ps.map (fun q => q.symbol)).Nodup) (hp : p ∈ ps) :
    posLookup ps p.symbol = p.contracts := by
  induction ps with
  | nil => simp at hp
  | cons q ps ih =>
    rw [List.map_cons, List.nodup_cons] at hnd
    rcases List.mem_cons.mp hp with rfl | hp'
    · show List.foldl _ (if p.symbol = p.symbol then p.contracts else 0) _ = _
      rw [if_pos rfl]
      exact posFold_of_not_mem p.contracts
        (fun r hr hrs => hnd.1 (hrs ▸ List.mem_map_of_mem _ hr))
    · show List.foldl _ (if q.symbol = p.symbol then q.contracts else 0) _ = _
      have hqp : q.symbol ≠ p.symbol := by
        intro hq
        exact hnd.1 (hq ▸ List.mem_map_of_mem _ hp')
      rw [if_neg hqp]
      exact ih hnd.2 hp'

theorem posLookup_ne_zero_mem {ps : List PosInfo} {s : String}
    (h : posLookup ps s ≠ 0) : ∃ p ∈ ps, p.symbol = s := by
  by_contra hc
  push_neg at hc
  exact h (posFold_of_not_mem 0 hc)

theorem closedFold_rm_dry (ps : List PosInfo) (env : ReconEnv) (l : List String)
    (acc : EngineState × List String) (hdry : env.dry_run = true) :
    (l.foldl (closedStep ps env) acc).2 = acc.2 ++ l := by
  induction l generalizing acc with
  | nil => simp
  | cons s l ih =>
    have hs : (closedStep ps env acc s).2 = acc.2 ++ [s] := by
      unfold closedStep
      dsimp only
      rw [hdry]
      simp
    rw [List.foldl_cons, ih (closedStep ps env acc s), hs]
    simp

theorem mem_checkActive_active {s : String} (st : EngineState) (env : ReconEnv)
    (ps : List PosInfo) (hdry : env.dry_run = false) :
    s ∈ (check_active_positions_state st env ps).active_positions ↔
      (s ∈ st.active_positions ∨ ∃ p ∈ ps, p.symbol = s ∧ 0 < p.contracts) ∧
        posLookup ps s ≠ 0 := by
  unfold check_active_positions_state
  rw [if_neg (by simp [hdry])]
  dsimp only
  rw [(closedFold_state_facts ps env _ _).1,
    closedFold_rm ps env _ _ hdry, List.nil_append, List.mem_filter]
  simp only [decide_eq_true_eq, List.mem_filter, decide_eq_true_eq, not_and,
    mem_manualSweep_active]
  constructor
  · rintro ⟨hmem, hrm⟩
    exact ⟨hmem, fun h0 => hrm hmem h0⟩
  · rintro ⟨hmem, h0⟩
    exact ⟨hmem, fun _ => h0⟩

theorem checkActive_state_facts (st : EngineState) (env : ReconEnv)
    (ps : List PosInfo) :
    (check_active_positions_state st env ps).pending_entries = st.pending_entries ∧
    (check_active_positions_state st env ps).is_halted = st.is_halted ∧
    st.records <+: (check_active_positions_state st env ps).records := by
  unfold check_active_positions_state
  split_ifs with h1 h2
  · simp
  · obtain ⟨c1, c2, c3, c4⟩ := closedFold_state_facts ps env st.active_positions (st, [])
    exact ⟨c2, c3, by simpa using c4⟩
  · obtain ⟨m1, m2, m3, m4⟩ := manualSweep_state_facts st ps
    obtain ⟨c1, c2, c3, c4⟩ :=
      closedFold_state_facts ps env (manualSweep st ps).active_positions
        (manualSweep st ps, [])
    exact ⟨by dsimp only; rw [c2, m1], by dsimp only; rw [c3, m2],
      m4.trans (by simpa using c4)⟩

theorem checkActive_nodup (st : EngineState) (env : ReconEnv) (ps : List PosInfo)
    (h : st.active_positions.Nodup) :
    (check_active_positions_state st env ps).active_positions.Nodup := by
  unfold check_active_positions_state
  split_ifs with h1 h2
  · exact h
  · exact List.Nodup.filter _ (by rw [(closedFold_state_facts ps env _ _).1]; exact h)
  · exact List.Nodup.filter _
      (by rw [(closedFold_state_facts ps env _ _).1]; exact manualSweep_nodup st ps h)

theorem checkActive_fixpoint (st : EngineState) (env : ReconEnv) (ps : List PosInfo)
    (hnd : (ps.map (fun q => q.symbol)).Nodup) :
    check_active_positions_state (check_active_positions_state st env ps) env ps
      = check_active_positions_state st env ps := by
  by_cases hdry : env.dry_run = true
  · have key : ∀ st' : EngineState, st'.active_positions = [] →
        check_active_positions_state st' env ps = st' := by
      intro st' ha
      unfold check_active_positions_state
      rw [if_pos hdry, if_pos ha]
    by_cases ha : st.active_positions = []
    · rw [key st ha, key st ha]
    · have h1 : (check_active_positions_state st env ps).active_positions = [] := by
        conv_lhs => unfold check_active_positions_state
        rw [if_pos hdry, if_neg ha]
        dsimp only
        rw [(closedFold_state_facts ps env _ _).1, closedFold_rm_dry ps env _ _ hdry]
        refine List.filter_eq_nil_iff.mpr ?_
        intro a ha'
        simp [ha']
      exact key _ h1
  · have hdry' : env.dry_run = false := by simpa using hdry
    set st1 := check_active_positions_state st env ps with hst1
    have hmem : ∀ s ∈ st1.active_positions, posLookup ps s ≠ 0 := by
      intro s hs
      rw [hst1] at hs
      exact ((mem_checkActive_active st env ps hdry').mp hs).2
    have hms : manualSweep st1 ps = st1 := by
      apply manualSweep_id
      intro p hp hc
      rw [hst1, mem_checkActive_active st env ps hdry']
      refine ⟨Or.inr ⟨p, hp, rfl, hc⟩, ?_⟩
      rw [posLookup_eq hnd hp]
      exact ne_of_gt hc
    conv_lhs => unfold check_active_positions_state
    rw [if_neg (by simp [hdry'])]
    dsimp only
    rw [hms, closedFold_id ps env _ _ hdry' hmem]
    simp

theorem recoverActive_cons (active : List String) (p : PosInfo) (ps : List PosInfo) :
    recoverActive active (p :: ps)
      = recoverActive (if 0 < p.contracts then insertSym p.symbol active else active) ps :=
  rfl

theorem recoverActive_nodup (active : List String) (ps : List PosInfo)
    (h : active.Nodup) : (recoverActive active ps).Nodup := by
  induction ps generalizing active with
  | nil => exact h
  | cons p ps ih =>
    rw [recoverActive_cons]
    split_ifs with hc
    · exact ih _ (insertSym_nodup h)
    · exact ih _ h

theorem mem_recoverActive {s : String} (active : List String) (ps : List PosInfo) :
    s ∈ recoverActive active ps ↔
      s ∈ active ∨ ∃ p ∈ ps, p.symbol = s ∧ 0 < p.contracts := by
  induction ps generalizing active with
  | nil => simp [recoverActive]
  | cons p ps ih =>
    rw [recoverActive_cons, ih]
    split_ifs with hc
    · rw [mem_insertSym]
      constructor
      · rintro ((h | h) | ⟨q, hq, hs, hqc⟩)
        · exact Or.inl h
        · exact Or.inr ⟨p, by simp, h.symm, hc⟩
        · exact Or.inr ⟨q, by simp [hq], hs, hqc⟩
      · rintro (h | ⟨q, hq, hs, hqc⟩)
        · exact Or.inl (Or.inl h)
        · rcases List.mem_cons.mp hq with rfl | hq'
          · exact Or.inl (Or.inr hs.symm)
          · exact Or.inr ⟨q, hq', hs, hqc⟩
    · constructor
      · rintro (h | ⟨q, hq, hs, hqc⟩)
        · exact Or.inl h
        · exact Or.inr ⟨q, by simp [hq], hs, hqc⟩
      · rintro (h | ⟨q, hq, hs, hqc⟩)
        · exact Or.inl h
        · rcases List.mem_cons.mp hq with rfl | hq'
          · exact absurd hqc hc
          · exact Or.inr ⟨q, hq', hs, hqc⟩

theorem step_is_halted {st st' : EngineState} (h : Step st st') :
    st'.is_halted = st.is_halted := by
  cases h with
  | placeEntry env symbol side amount tp_dist sl_dist =>
    exact (place_market_state_facts st env symbol side amount tp_dist sl_dist).2.1
  | cancelPending symbol lp am =>
    unfold cancel_pending_order
    split_ifs <;> rfl
  | checkActive env ps => exact (checkActive_state_facts st env ps).2.1
  | checkMismatch u ps => rfl
  | sync dry ps orders algos =>
    unfold sync_state_from_exchange
    split_ifs <;> rfl
  | timeExit symbol amount =>
    unfold time_exit_step
    split_ifs <;> rfl
  | chandelierClose symbol => rfl

theorem step_pending {st st' : EngineState} (h : Step st st')
    (hp : st.pending_entries = []) : st'.pending_entries = [] := by
  cases h with
  | placeEntry env symbol side amount tp_dist sl_dist =>
    rw [(place_market_state_facts st env symbol side amount tp_dist sl_dist).1, hp]
  | cancelPending symbol lp am =>
    unfold cancel_pending_order
    split_ifs <;> simp [eraseSym, hp]
  | checkActive env ps => rw [(checkActive_state_facts st env ps).1, hp]
  | checkMismatch u ps => exact hp
  | sync dry ps orders algos =>
    unfold sync_state_from_exchange
    split_ifs <;> simp [hp]
  | timeExit symbol amount =>
    unfold time_exit_step
    split_ifs <;> simp [hp]
  | chandelierClose symbol => exact hp

theorem step_nodup {st st' : EngineState} (h : Step st st')
    (hn : st.active_positions.Nodup) : st'.active_positions.Nodup := by
  cases h with
  | placeEntry env symbol side amount tp_dist sl_dist =>
    rcases (place_market_state_facts st env symbol side amount tp_dist sl_dist).2.2.2
      with ha | ha
    · rw [ha]; exact hn
    · rw [ha]; exact insertSym_nodup hn
  | cancelPending symbol lp am =>
    unfold cancel_pending_order
    split_ifs <;> simp [hn]
  | checkActive env ps => exact checkActive_nodup st env ps hn
  | checkMismatch u ps => exact hn
  | sync dry ps orders algos =>
    unfold sync_state_from_exchange
    split_ifs
    · exact hn
    · exact recoverActive_nodup _ ps hn
  | timeExit symbol amount =>
    unfold time_exit_step
    split_ifs <;> simp [eraseSym, hn, List.Nodup.filter]
  | chandelierClose symbol =>
    exact eraseSym_nodup hn

theorem reachable_inv {st : EngineState} (h : Reachable st) :
    st.pending_entries = [] ∧ st.active_positions.Nodup ∧ st.is_halted = false := by
  induction h with
  | refl => exact ⟨rfl, List.nodup_nil, rfl⟩
  | tail _ hstep ih =>
    exact ⟨step_pending hstep ih.1, step_nodup hstep ih.2.1,
      (step_is_halted hstep).trans ih.2.2⟩

theorem place_market_reject (st : EngineState) (env : EntryEnv)
    (symbol side : String) (amount tp_dist sl_dist : ℚ)
    (h : st.is_halted = true ∨ symbol ∈ st.active_positions ∨
      cooldownActive st env.now symbol = true) :
    place_market_entry_order st env symbol side amount tp_dist sl_dist
      = (false, st, []) := by
  unfold place_market_entry_order
  rcases h with h | h | h
  · rw [if_pos h]
  · split_ifs <;> rfl
  · split_ifs <;> rfl

theorem place_market_accept_spec (st : EngineState) (env : EntryEnv)
    (symbol side : String) (amount tp_dist sl_dist : ℚ)
    (h1 : st.is_halted = false) (h2 : symbol ∉ st.active_positions)
    (h3 : cooldownActive st env.now symbol = false)
    (h4 : 0 < resolveAvgPrice env) :
    place_market_entry_order st env symbol side amount tp_dist sl_dist
      = (true,
         (place_tp_sl_orders
            { st with active_positions := insertSym symbol st.active_positions }
            env symbol (if side = "buy" then "LONG" else "SHORT") amount
            (resolveAvgPrice env)).2,
         (if env.dry_run then [] else
            [ExchangeAction.createMarketOrder symbol side amount])
           ++ [ExchangeAction.trackPosition symbol,
               ExchangeAction.invokeTpSl symbol]) := by
  unfold place_market_entry_order
  rw [if_neg (by simp [h1]), if_neg h2, if_neg (by simp [h3])]
  dsimp only
  rw [if_neg (not_le.mpr h4)]

theorem place_market_fillfail_spec (st : EngineState) (env : EntryEnv)
    (symbol side : String) (amount tp_dist sl_dist : ℚ)
    (h1 : st.is_halted = false) (h2 : symbol ∉ st.active_positions)
    (h3 : cooldownActive st env.now symbol = false)
    (h4 : resolveAvgPrice env ≤ 0) :
    place_market_entry_order st env symbol side amount tp_dist sl_dist
      = (false, st,
         if env.dry_run then [] else
           [ExchangeAction.createMarketOrder symbol side amount]) := by
  unfold place_market_entry_order
  rw [if_neg (by simp [h1]), if_neg h2, if_neg (by simp [h3])]
  dsimp only
  rw [if_pos h4]

theorem mem_place_tp_sl_active (st : EngineState) (env : EntryEnv)
    (symbol signal : String) (amount entry_price : ℚ)
    (h : symbol ∈ st.active_positions) :
    symbol ∈ (place_tp_sl_orders st env symbol signal amount entry_price).2.active_positions := by
  unfold place_tp_sl_orders
  dsimp only
  split_ifs <;> simp [mem_insertSym, h]

theorem update_chandelier_direction (mult : ℚ) (pos : ChandelierPos)
    (ch cl ca : ℚ) :
    (update_chandelier mult pos ch cl ca).direction = pos.direction := by
  unfold update_chandelier
  split_ifs <;> rfl

theorem update_chandelier_mono_long (mult : ℚ) (pos : ChandelierPos)
    (h : pos.direction = "LONG") (ch cl ca : ℚ) :
    pos.chandelier_stop ≤ (update_chandelier mult pos ch cl ca).chandelier_stop := by
  unfold update_chandelier
  rw [if_pos h]
  exact le_max_right _ _

theorem update_chandelier_mono_short (mult : ℚ) (pos : ChandelierPos)
    (h : pos.direction ≠ "LONG") (ch cl ca : ℚ) :
    (update_chandelier mult pos ch cl ca).chandelier_stop ≤ pos.chandelier_stop := by
  unfold update_chandelier
  rw [if_neg h]
  exact min_le_right _ _

theorem chandelierTrace_chain_long (mult : ℚ) (pos : ChandelierPos)
    (h : pos.direction = "LONG") (candles : List (ℚ × ℚ × ℚ)) :
    List.Chain' (fun a b => a ≤ b)
      (pos.chandelier_stop :: chandelierTrace mult pos candles) := by
  induction candles generalizing pos with
  | nil => simp [chandelierTrace]
  | cons c rest ih =>
    rw [chandelierTrace]
    rw [List.chain'_cons]
    exact ⟨update_chandelier_mono_long mult pos h c.1 c.2.1 c.2.2,
      ih _ ((update_chandelier_direction mult pos c.1 c.2.1 c.2.2).trans h)⟩

theorem chandelierTrace_chain_short (mult : ℚ) (pos : ChandelierPos)
    (h : pos.direction ≠ "LONG") (candles : List (ℚ × ℚ × ℚ)) :
    List.Chain' (fun a b => b ≤ a)
      (pos.chandelier_stop :: chandelierTrace mult pos candles) := by
  induction candles generalizing pos with
  | nil => simp [chandelierTrace]
  | cons c rest ih =>
    rw [chandelierTrace]
    rw [List.chain'_cons]
    refine ⟨update_chandelier_mono_short mult pos h c.1 c.2.1 c.2.2, ih _ ?_⟩
    rw [update_chandelier_direction mult pos c.1 c.2.1 c.2.2]
    exact h

theorem if_lt_eq_max (a b : ℚ) : (if a < b then b else a) = max a b := by
  split_ifs with h
  · exact (max_eq_right (le_of_lt h)).symm
  · exact (max_eq_left (not_lt.mp h)).symm

theorem calc_size_invest (risk_pct leverage capital entry_price : ℚ)
    (hc : 0 < capital) (he : 0 < entry_price) (hl : 0 < leverage)
    (hfit : max (capital * risk_pct * leverage) (11 / 2) ≤ capital * leverage) :
    (calculate_position_size risk_pct leverage id capital entry_price).invest_usdt
      = max (capital * risk_pct) (11 / 2 / leverage) := by
  unfold calculate_position_size
  rw [if_neg (by push_neg; exact ⟨hc, he⟩)]
  dsimp only
  rw [if_lt_eq_max]
  rw [if_neg (not_lt.mpr hfit)]
  have htarget_pos : 0 < max (capital * risk_pct * leverage) (11 / 2) :=
    lt_of_lt_of_le (by norm_num) (le_max_right _ _)
  have hraw_pos : 0 < max (capital * risk_pct * leverage) (11 / 2) / entry_price :=
    div_pos htarget_pos he
  rw [if_neg (by simpa using not_le.mpr hraw_pos)]
  show max (capital * risk_pct * leverage) (11 / 2) / entry_price * entry_price / leverage
      = max (capital * risk_pct) (11 / 2 / leverage)
  rw [div_mul_cancel₀ _ (ne_of_gt he)]
  rcases max_cases (capital * risk_pct * leverage) ((11 : ℚ) / 2) with ⟨hm, hge⟩ | ⟨hm, hlt⟩
  · rw [hm, mul_div_assoc, div_self (ne_of_gt hl), mul_one]
    refine (max_eq_left ?_).symm
    rw [div_le_iff₀ hl]
    exact hge
  · rw [hm]
    refine (max_eq_right ?_).symm
    rw [le_div_iff₀ hl]
    exact le_of_lt hlt

theorem calc_size_overflow (risk_pct leverage : ℚ) (round_amt : ℚ → ℚ)
    (capital entry_price : ℚ)
    (hc : 0 < capital) (he : 0 < entry_price)
    (hover : capital * leverage < max (capital * risk_pct * leverage) (11 / 2)) :
    calculate_position_size risk_pct leverage round_amt capital entry_price
      = zeroSizing := by
  unfold calculate_position_size
  rw [if_neg (by push_neg; exact ⟨hc, he⟩)]
  dsimp only
  rw [if_lt_eq_max, if_pos hover]

theorem checkActive_absorbs_manual (st : EngineState) (renv : ReconEnv)
    (symbol pside : String) (c ep : ℚ) (hdry : renv.dry_run = false)
    (hc : 0 < c) (hns : symbol ∉ st.active_positions) :
    (⟨"MANUAL", symbol, ep, c, 0⟩ : TradeRecord)
        ∈ (check_active_positions_state st renv [⟨symbol, c, ep, pside⟩]).records ∧
    symbol ∈ (check_active_positions_state st renv [⟨symbol, c, ep, pside⟩]).active_positions := by
  constructor
  · unfold check_active_positions_state
    rw [if_neg (by simp [hdry])]
    dsimp only
    have hms : manualSweep st [⟨symbol, c, ep, pside⟩]
        = { st with
            active_positions := st.active_positions ++ [symbol]
            records := st.records ++ [⟨"MANUAL", symbol, ep, c, 0⟩] } := by
      show manualStep st ⟨symbol, c, ep, pside⟩ = _
      unfold manualStep
      rw [if_pos ⟨hc, hns⟩]
    rw [hms]
    refine (closedFold_state_facts _ renv _ _).2.2.2.subset ?_
    simp
  · rw [mem_checkActive_active st renv _ hdry]
    refine ⟨Or.inr ⟨⟨symbol, c, ep, pside⟩, by simp, rfl, hc⟩, ?_⟩
    show (if symbol = symbol then c else (0 : ℚ)) ≠ 0
    rw [if_pos rfl]
    exact ne_of_gt hc

/-! ## Claim theorems -/

/-- Claim C1: in every reachable engine state there is at most one
ActivePosition entry per symbol, no symbol has both a PendingEntry and an
ActivePosition, and `place_market_entry_order` rejects (returns `False`,
leaving the state untouched and submitting nothing) whenever an
ActivePosition already exists for the symbol. -/
theorem c1_at_most_one_position_invariant :
    ∀ st : EngineState, Reachable st →
      (∀ symbol : String,
        st.active_positions.count symbol ≤ 1 ∧
        ¬(symbol ∈ st.pending_entries ∧ symbol ∈ st.active_positions)) ∧
      (∀ (env : EntryEnv) (symbol side : String) (amount tp_dist sl_dist : ℚ),
        symbol ∈ st.active_positions →
          place_market_entry_order st env symbol side amount tp_dist sl_dist
            = (false, st, [])) := by
  intro st hr
  obtain ⟨hp, hn, _⟩ := reachable_inv hr
  refine ⟨fun symbol => ⟨List.nodup_iff_count_le_one.mp hn symbol, ?_⟩,
    fun env symbol side amount tp_dist sl_dist hmem =>
      place_market_reject st env symbol side amount tp_dist sl_dist
        (Or.inr (Or.inl hmem))⟩
  rw [hp]
  simp

/-- Environment used by the witness of C1: live run, fill price 100. -/
def w1Env : EntryEnv := ⟨false, 0, 100, none, 0, id, true⟩

/-- State reached after one accepted entry on SOL (witness of C1). -/
def w1State : EngineState :=
  (place_market_entry_order initState w1Env "SOL/USDT:USDT" "buy" 1 1 1).2.1

/-- Witness for C1 at a reachable state that actually holds a position. -/
theorem c1_at_most_one_position_invariant_witness :
    w1State.active_positions.count "SOL/USDT:USDT" ≤ 1 ∧
    ¬("SOL/USDT:USDT" ∈ w1State.pending_entries ∧
        "SOL/USDT:USDT" ∈ w1State.active_positions) ∧
    place_market_entry_order w1State w1Env "SOL/USDT:USDT" "sell" 2 1 1
      = (false, w1State, []) := by
  have hreach : Reachable w1State :=
    Relation.ReflTransGen.single
      (Step.placeEntry initState w1Env "SOL/USDT:USDT" "buy" 1 1 1)
  have h := c1_at_most_one_position_invariant w1State hreach
  have hspec := place_market_accept_spec initState w1Env "SOL/USDT:USDT" "buy" 1 1 1
    rfl (by simp [initState]) rfl (by norm_num [resolveAvgPrice, w1Env])
  have hmem : "SOL/USDT:USDT" ∈ w1State.active_positions := by
    show "SOL/USDT:USDT" ∈
      (place_market_entry_order initState w1Env "SOL/USDT:USDT" "buy" 1 1 1).2.1.active_positions
    rw [hspec]
    refine mem_place_tp_sl_active _ w1Env _ _ _ _ ?_
    show "SOL/USDT:USDT" ∈ insertSym "SOL/USDT:USDT" initState.active_positions
    exact self_mem_insertSym
  exact ⟨(h.1 "SOL/USDT:USDT").1, (h.1 "SOL/USDT:USDT").2,
    h.2 w1Env "SOL/USDT:USDT" "sell" 2 1 1 hmem⟩

/-- Claim C2: in every accepted entry the symbol is added to the
active-position map strictly before `place_tp_sl_orders` is invoked, and
the call returns success with the symbol still tracked even when every exit
order submission fails (`tp_sl_ok := false`). -/
theorem c2_track_before_protect (st : EngineState) (env : EntryEnv)
    (symbol side : String) (amount tp_dist sl_dist : ℚ)
    (h1 : st.is_halted = false) (h2 : symbol ∉ st.active_positions)
    (h3 : cooldownActive st env.now symbol = false)
    (h4 : 0 < resolveAvgPrice env) :
    (place_market_entry_order st env symbol side amount tp_dist sl_dist).1 = true ∧
    symbol ∈ (place_market_entry_order st env symbol side amount
        tp_dist sl_dist).2.1.active_positions ∧
    (∃ i j : ℕ, i < j ∧
      (place_market_entry_order st env symbol side amount tp_dist sl_dist).2.2[i]?
        = some (ExchangeAction.trackPosition symbol) ∧
      (place_market_entry_order st env symbol side amount tp_dist sl_dist).2.2[j]?
        = some (ExchangeAction.invokeTpSl symbol)) ∧
    (place_market_entry_order st { env with tp_sl_ok := false } symbol side
        amount tp_dist sl_dist).1 = true ∧
    symbol ∈ (place_market_entry_order st { env with tp_sl_ok := false } symbol
        side amount tp_dist sl_dist).2.1.active_positions := by
  rw [place_market_accept_spec st env symbol side amount tp_dist sl_dist h1 h2 h3 h4,
    place_market_accept_spec st { env with tp_sl_ok := false } symbol side amount
      tp_dist sl_dist h1 h2 h3 h4]
  refine ⟨rfl, mem_place_tp_sl_active _ env symbol _ amount _ self_mem_insertSym,
    ?_, rfl, mem_place_tp_sl_active _ _ symbol _ amount _ self_mem_insertSym⟩
  by_cases hd : env.dry_run = true
  · rw [if_pos hd]
    exact ⟨0, 1, by norm_num, rfl, rfl⟩
  · rw [if_neg hd]
    exact ⟨1, 2, by norm_num, rfl, rfl⟩

/-- Witness for C2: a live entry on XRP whose TP/SL submissions all fail is
still reported successful, tracked, and tracked-before-protected. -/
theorem c2_track_before_protect_witness :
    (place_market_entry_order initState ⟨false, 0, 50, none, 0, id, false⟩
        "XRP/USDT:USDT" "buy" 1 1 1).1 = true ∧
    "XRP/USDT:USDT" ∈ (place_market_entry_order initState
        ⟨false, 0, 50, none, 0, id, false⟩
        "XRP/USDT:USDT" "buy" 1 1 1).2.1.active_positions ∧
    (place_market_entry_order initState ⟨false, 0, 50, none, 0, id, false⟩
        "XRP/USDT:USDT" "buy" 1 1 1).2.2[1]?
      = some (ExchangeAction.trackPosition "XRP/USDT:USDT") ∧
    (place_market_entry_order initState ⟨false, 0, 50, none, 0, id, false⟩
        "XRP/USDT:USDT" "buy" 1 1 1).2.2[2]?
      = some (ExchangeAction.invokeTpSl "XRP/USDT:USDT") := by
  have h := c2_track_before_protect initState ⟨false, 0, 50, none, 0, id, false⟩
    "XRP/USDT:USDT" "buy" 1 1 1 rfl (by simp [initState]) rfl
    (by norm_num [resolveAvgPrice])
  have hspec := place_market_accept_spec initState ⟨false, 0, 50, none, 0, id, false⟩
    "XRP/USDT:USDT" "buy" 1 1 1 rfl (by simp [initState]) rfl
    (by norm_num [resolveAvgPrice])
  exact ⟨h.1, h.2.1, by rw [hspec]; rfl, by rw [hspec]; rfl⟩

/-- Claim C3 counterexample: `check_state_mismatch` observing a total USDT
balance of `0` (catastrophic collapse) on a state that tracks a position
leaves the halt flag `false` — it never triggers the halt switch. -/
theorem c3_failsafe_counterexample :
    (check_state_mismatch
        { initState with active_positions := ["BTC/USDT:USDT"] } 0 []).is_halted
      = false := rfl

/-- Claim C3 (amended): the halt flag is initialized `false` at process
start, `check_state_mismatch` never modifies the engine state at all (its
mismatch defence is an unimplemented stub), no engine transition ever
changes the halt flag, and consequently the flag is `false` in every
reachable state — it is never set and never cleared. -/
theorem c3_haltflag_amended :
    initState.is_halted = false ∧
    (∀ (st : EngineState) (usdt_total : ℚ) (ps : List PosInfo),
      check_state_mismatch st usdt_total ps = st) ∧
    (∀ st st' : EngineState, Step st st' → st'.is_halted = st.is_halted) ∧
    (∀ st : EngineState, Reachable st → st.is_halted = false) :=
  ⟨rfl, fun _ _ _ => rfl, fun _ _ h => step_is_halted h,
    fun _ hr => (reachable_inv hr).2.2⟩

/-- Witness for C3 (amended) at a concrete mismatch-check step. -/
theorem c3_haltflag_amended_witness :
    check_state_mismatch initState 5 [] = initState ∧
    (check_state_mismatch initState 5 []).is_halted = initState.is_halted ∧
    initState.is_halted = false := by
  obtain ⟨h1, h2, h3, h4⟩ := c3_haltflag_amended
  exact ⟨h2 initState 5 [], h3 initState _ (Step.checkMismatch initState 5 []),
    h4 initState Relation.ReflTransGen.refl⟩

/-- Claim C4: the chandelier stop of a LONG position never decreases and
that of a SHORT position never increases over any sequence of
`update_chandelier` calls, and the spec's concrete LONG example
(entry 100, ATR 2, multiplier 2, highs 100/105/102/108) yields the stop
sequence 96, 101, 101, 104. -/
theorem c4_monotonic_trailing_stop :
    (∀ (mult : ℚ) (pos : ChandelierPos) (candles : List (ℚ × ℚ × ℚ)),
      pos.direction = "LONG" →
        List.Chain' (fun a b => a ≤ b)
          (pos.chandelier_stop :: chandelierTrace mult pos candles)) ∧
    (∀ (mult : ℚ) (pos : ChandelierPos) (candles : List (ℚ × ℚ × ℚ)),
      pos.direction = "SHORT" →
        List.Chain' (fun a b => b ≤ a)
          (pos.chandelier_stop :: chandelierTrace mult pos candles)) ∧
    (register_position 2 "LONG" 100 2).chandelier_stop = 96 ∧
    chandelierTrace 2 (register_position 2 "LONG" 100 2)
        [(100, 0, 2), (105, 0, 2), (102, 0, 2), (108, 0, 2)]
      = [96, 101, 101, 104] := by
  refine ⟨fun mult pos candles h => chandelierTrace_chain_long mult pos h candles,
    fun mult pos candles h =>
      chandelierTrace_chain_short mult pos (by rw [h]; decide) candles,
    by norm_num [register_position],
    by norm_num [chandelierTrace, update_chandelier, register_position]⟩

/-- Witness for C4 on concrete LONG and SHORT positions. -/
theorem c4_monotonic_trailing_stop_witness :
    List.Chain' (fun a b => a ≤ b)
      ((96 : ℚ) :: chandelierTrace 2 ⟨"LONG", 100, 100, 96, 2⟩ [(105, 0, 2)]) ∧
    List.Chain' (fun a b => b ≤ a)
      ((104 : ℚ) :: chandelierTrace 2 ⟨"SHORT", 100, 100, 104, 2⟩ [(105, 95, 2)]) := by
  have h := c4_monotonic_trailing_stop
  exact ⟨h.1 2 ⟨"LONG", 100, 100, 96, 2⟩ [(105, 0, 2)] rfl,
    h.2.1 2 ⟨"SHORT", 100, 100, 104, 2⟩ [(105, 95, 2)] rfl⟩

/-- Claim C5 counterexample: a symbol with a PendingEntry (and no halt, no
ActivePosition, no cooldown) is *not* rejected — `place_market_entry_order`
returns `True` and submits the market order, because the guard never
consults `pending_entries`. -/
theorem c5_entry_precondition_counterexample :
    (place_market_entry_order
        { initState with pending_entries := ["ETH/USDT:USDT"] }
        ⟨false, 0, 200, none, 0, id, true⟩ "ETH/USDT:USDT" "buy" 1 1 1).1
      = true ∧
    ExchangeAction.createMarketOrder "ETH/USDT:USDT" "buy" 1
      ∈ (place_market_entry_order
          { initState with pending_entries := ["ETH/USDT:USDT"] }
          ⟨false, 0, 200, none, 0, id, true⟩ "ETH/USDT:USDT" "buy" 1 1 1).2.2 := by
  have hs := place_market_accept_spec
    { initState with pending_entries := ["ETH/USDT:USDT"] }
    ⟨false, 0, 200, none, 0, id, true⟩ "ETH/USDT:USDT" "buy" 1 1 1
    rfl (by simp [initState]) rfl (by norm_num [resolveAvgPrice])
  rw [hs]
  exact ⟨rfl, by simp⟩

/-- Claim C5 (amended): `place_market_entry_order` returns `False` with no
state change and no exchange action whenever the halt flag is set, an
ActivePosition exists for the symbol, or an unexpired loss cooldown is
active; when none of these hold (live mode) it proceeds to submit the
market entry order.  A PendingEntry is *not* consulted by the guard — but
`pending_entries` is empty in every reachable state, nothing ever adds to
it. -/
theorem c5_entry_guard_amended :
    (∀ (st : EngineState) (env : EntryEnv) (symbol side : String)
        (amount tp_dist sl_dist : ℚ),
      st.is_halted = true ∨ symbol ∈ st.active_positions ∨
          cooldownActive st env.now symbol = true →
        place_market_entry_order st env symbol side amount tp_dist sl_dist
          = (false, st, [])) ∧
    (∀ (st : EngineState) (env : EntryEnv) (symbol side : String)
        (amount tp_dist sl_dist : ℚ),
      st.is_halted = false → symbol ∉ st.active_positions →
      cooldownActive st env.now symbol = false → env.dry_run = false →
        (place_market_entry_order st env symbol side amount tp_dist sl_dist).2.2[0]?
          = some (ExchangeAction.createMarketOrder symbol side amount)) ∧
    (∀ st : EngineState, Reachable st → st.pending_entries = []) := by
  refine ⟨fun st env symbol side a t s h =>
      place_market_reject st env symbol side a t s h,
    fun st env symbol side a t s h1 h2 h3 hd => ?_,
    fun st hr => (reachable_inv hr).1⟩
  by_cases h4 : resolveAvgPrice env ≤ 0
  · rw [place_market_fillfail_spec st env symbol side a t s h1 h2 h3 h4,
      if_neg (by simp [hd])]
    rfl
  · rw [place_market_accept_spec st env symbol side a t s h1 h2 h3 (not_le.mp h4)]
    show ((if env.dry_run then _ else _) ++ _)[0]? = _
    rw [if_neg (by simp [hd])]
    rfl

/-- Witness for C5 (amended): an existing BNB position is rejected; a clean
BNB entry submits the market order first; the initial state has no pending
entries. -/
theorem c5_entry_guard_amended_witness :
    place_market_entry_order
        { initState with active_positions := ["BNB/USDT:USDT"] }
        ⟨false, 0, 10, none, 0, id, true⟩ "BNB/USDT:USDT" "buy" 1 1 1
      = (false, { initState with active_positions := ["BNB/USDT:USDT"] }, []) ∧
    (place_market_entry_order initState ⟨false, 0, 10, none, 0, id, true⟩
        "BNB/USDT:USDT" "buy" 1 1 1).2.2[0]?
      = some (ExchangeAction.createMarketOrder "BNB/USDT:USDT" "buy" 1) ∧
    initState.pending_entries = [] := by
  have h := c5_entry_guard_amended
  exact ⟨h.1 _ _ _ _ _ _ _ (Or.inr (Or.inl (by simp))),
    h.2.1 initState _ _ _ _ _ _ rfl (by simp [initState]) rfl rfl,
    h.2.2 initState Relation.ReflTransGen.refl⟩

/-- Claim C6: running `check_active_positions_state` twice against the same
exchange-reported positions (each exchange symbol reported once) leaves the
state of the second run identical to the first — in particular zero
additional TradeRecords and no change to the loss cooldowns. -/
theorem c6_idempotent_reconciliation (st : EngineState) (env : ReconEnv)
    (ps : List PosInfo) (hnd : (ps.map (fun q => q.symbol)).Nodup) :
    check_active_positions_state (check_active_positions_state st env ps) env ps
        = check_active_positions_state st env ps ∧
    (check_active_positions_state (check_active_positions_state st env ps) env
        ps).records
      = (check_active_positions_state st env ps).records ∧
    (check_active_positions_state (check_active_positions_state st env ps) env
        ps).loss_cooldown
      = (check_active_positions_state st env ps).loss_cooldown := by
  have h := checkActive_fixpoint st env ps hnd
  exact ⟨h, by rw [h], by rw [h]⟩

/-- Witness for C6: one stale tracked symbol (A), one still-live tracked
symbol (B) and one untracked live symbol (C), with a losing close read back
from the exchange. -/
theorem c6_idempotent_reconciliation_witness :
    check_active_positions_state
        (check_active_positions_state
          { initState with active_positions := ["A", "B"] }
          ⟨false, 0, 15, fun _ => (9, 1, -2)⟩
          [⟨"B", 3, 10, "long"⟩, ⟨"C", 2, 5, "long"⟩])
        ⟨false, 0, 15, fun _ => (9, 1, -2)⟩
        [⟨"B", 3, 10, "long"⟩, ⟨"C", 2, 5, "long"⟩]
      = check_active_positions_state
          { initState with active_positions := ["A", "B"] }
          ⟨false, 0, 15, fun _ => (9, 1, -2)⟩
          [⟨"B", 3, 10, "long"⟩, ⟨"C", 2, 5, "long"⟩] :=
  (c6_idempotent_reconciliation
    { initState with active_positions := ["A", "B"] }
    ⟨false, 0, 15, fun _ => (9, 1, -2)⟩
    [⟨"B", 3, 10, "long"⟩, ⟨"C", 2, 5, "long"⟩] (by decide)).1

/-- Claim C7: the startup sweep cancels every open order that is not
(reduce-only for a symbol with a tracked active position): pure entries
without a position, and orphaned reduce-only orders without a position, are
cancelled; every cancellation traces back to such an order, so reduce-only
orders protecting a tracked position are preserved.  Concretely: a live
position on A protected by a reduce-only order and an orphaned plain order
on B yield exactly one cancellation — B's. -/
theorem c7_startup_sweep_selectivity :
    (∀ (st : EngineState) (ps : List PosInfo) (orders : List OpenOrder)
        (algos : List AlgoOrder) (o : OpenOrder), o ∈ orders →
      ¬(o.symbol ∈ recoverActive st.active_positions ps ∧ o.reduceOnly = true) →
        ExchangeAction.cancelOrder o.symbol o.id
          ∈ (sync_state_from_exchange st false ps orders algos).2) ∧
    (∀ (st : EngineState) (ps : List PosInfo) (orders : List OpenOrder)
        (algos : List AlgoOrder) (s i : String),
      ExchangeAction.cancelOrder s i
          ∈ (sync_state_from_exchange st false ps orders algos).2 →
        ∃ o ∈ orders, o.symbol = s ∧ o.id = i ∧
          ¬(s ∈ recoverActive st.active_positions ps ∧ o.reduceOnly = true)) ∧
    (sync_state_from_exchange initState false [⟨"A", 1, 10, "long"⟩]
        [⟨"A", "1", true⟩, ⟨"B", "2", false⟩] []).2
      = [ExchangeAction.cancelOrder "B" "2"] := by
  refine ⟨?_, ?_, ?_⟩
  · intro st ps orders algos o ho hcond
    unfold sync_state_from_exchange
    rw [if_neg (by simp)]
    dsimp only
    refine List.mem_append.mpr (Or.inl ?_)
    exact List.mem_map.mpr ⟨o, List.mem_filter.mpr
      ⟨ho, by simp only [decide_eq_true_eq]; exact hcond⟩, rfl⟩
  · intro st ps orders algos s i hmem
    rw [sync_state_from_exchange, if_neg (by simp)] at hmem
    dsimp only at hmem
    rcases List.mem_append.mp hmem with h | h
    · obtain ⟨o, homem, heq⟩ := List.mem_map.mp h
      obtain ⟨ho, hcond⟩ := List.mem_filter.mp homem
      cases heq
      simp only [decide_eq_true_eq] at hcond
      exact ⟨o, ho, rfl, rfl, hcond⟩
    · obtain ⟨a, -, heq⟩ := List.mem_map.mp h
      exact absurd heq (by simp)
  · norm_num [sync_state_from_exchange, recoverActive, insertSym, initState,
      algoMatchesActive]

/-- Witness for C7: B's orphaned plain order is cancelled in the concrete
scenario, and the cancellation indeed traces back to B's order. -/
theorem c7_startup_sweep_selectivity_witness :
    ExchangeAction.cancelOrder "B" "2"
      ∈ (sync_state_from_exchange initState false [⟨"A", 1, 10, "long"⟩]
          [⟨"A", "1", true⟩, ⟨"B", "2", false⟩] []).2 ∧
    ∃ o ∈ ([⟨"A", "1", true⟩, ⟨"B", "2", false⟩] : List OpenOrder),
      o.symbol = "B" ∧ o.id = "2" ∧
      ¬("B" ∈ recoverActive initState.active_positions [⟨"A", 1, 10, "long"⟩] ∧
          o.reduceOnly = true) := by
  have h := c7_startup_sweep_selectivity
  have hmem := h.1 initState [⟨"A", 1, 10, "long"⟩]
    [⟨"A", "1", true⟩, ⟨"B", "2", false⟩] [] ⟨"B", "2", false⟩
    (by simp) (by simp)
  exact ⟨hmem, h.2.1 initState [⟨"A", 1, 10, "long"⟩]
    [⟨"A", "1", true⟩, ⟨"B", "2", false⟩] [] "B" "2" hmem⟩

/-- Claim C8 counterexample: the margin invested is *not*
`clamp(capital × risk, min_notional / leverage, 0.95 × capital)`.
With `risk = 0.01`, `leverage = 5`: at `capital = 1, entry = 100` the code
returns margin `0` (it rejects when even the floored notional exceeds
`capital × leverage`) while the claimed formula gives `0.95 × 1 = 19/20`;
and at the spec's own example `capital = 50, entry = 100` the code's margin
is `1.1` (floor notional is the hard-coded `5.5`, not a configurable `6`),
not the claimed `1.2`. -/
theorem c8_margin_clamp_counterexample :
    (calculate_position_size (1 / 100) 5 id 1 100).invest_usdt = 0 ∧
    specMarginClaim (1 / 100) 5 (11 / 2) 1 = 19 / 20 ∧
    ((19 : ℚ) / 20 ≠ 0) ∧
    (calculate_position_size (1 / 100) 5 id 50 100).invest_usdt = 11 / 10 ∧
    specMarginClaim (1 / 100) 5 6 50 = 6 / 5 ∧
    ((11 : ℚ) / 10 ≠ 6 / 5) := by
  refine ⟨?_, ?_, by norm_num, ?_, ?_, by norm_num⟩
  · have h := calc_size_overflow (1 / 100) 5 id 1 100 (by norm_num) (by norm_num)
      (by rw [max_def]; norm_num)
    rw [h]
    rfl
  · norm_num [specMarginClaim, max_def, min_def]
  · have h := calc_size_invest (1 / 100) 5 50 100 (by norm_num) (by norm_num)
      (by norm_num) (by rw [max_def]; norm_num)
    rw [h, max_def]
    norm_num
  · norm_num [specMarginClaim, max_def, min_def]

/-- Claim C8 (amended): with identity quantity-rounding and positive
capital, entry price and leverage, the invested margin equals
`capital × risk_pct` clamped below to the hard-coded `5.5` USDT minimum
notional divided by leverage, whenever that floored notional fits within
`capital × leverage`; when it does not fit, the function returns the
zero-quantity result instead of clamping to 95% of capital (no such upper
clamp exists).  At `capital = 50, entry = 100, risk = 0.01, leverage = 5`
the margin is `1.1`. -/
theorem c8_margin_clamps_amended (risk_pct leverage capital entry_price : ℚ)
    (hc : 0 < capital) (he : 0 < entry_price) (hl : 0 < leverage) :
    (max (capital * risk_pct * leverage) (11 / 2) ≤ capital * leverage →
      (calculate_position_size risk_pct leverage id capital entry_price).invest_usdt
        = max (capital * risk_pct) (11 / 2 / leverage)) ∧
    (capital * leverage < max (capital * risk_pct * leverage) (11 / 2) →
      calculate_position_size risk_pct leverage id capital entry_price
        = zeroSizing) :=
  ⟨fun hfit => calc_size_invest risk_pct leverage capital entry_price hc he hl hfit,
   fun hover => calc_size_overflow risk_pct leverage id capital entry_price hc he hover⟩

/-- Witness for C8 (amended): margin 1.1 at capital 50, zero result at
capital 1. -/
theorem c8_margin_clamps_amended_witness :
    (calculate_position_size (1 / 100) 5 id 50 200).invest_usdt = 11 / 10 ∧
    calculate_position_size (1 / 100) 5 id 1 200 = zeroSizing := by
  have h1 := (c8_margin_clamps_amended (1 / 100) 5 50 200 (by norm_num)
    (by norm_num) (by norm_num)).1 (by rw [max_def]; norm_num)
  have h2 := (c8_margin_clamps_amended (1 / 100) 5 1 200 (by norm_num)
    (by norm_num) (by norm_num)).2 (by rw [max_def]; norm_num)
  refine ⟨?_, h2⟩
  rw [h1, max_def]
  norm_num

/-- Claim C9: the caller (`process_closed_kline` in `main.py`) passes four
positional arguments including the ATR and reads `tp_dist` / `sl_dist` from
the sizing result, but `RiskManager.calculate_position_size` accepts only
three parameters and returns no such keys — the call raises `TypeError`
(and even keyless, the distances are absent). -/
theorem c9_sizing_interface_mismatch :
    "tp_dist" ∈ sizingKeysReadByCaller ∧ "tp_dist" ∉ sizingResultKeys ∧
    "sl_dist" ∈ sizingKeysReadByCaller ∧ "sl_dist" ∉ sizingResultKeys ∧
    "atr_val" ∈ sizingArgsAtCallSite ∧ sizingArgsAtCallSite.length = 4 ∧
    sizingParams.length = 3 := by decide

/-- Claim C10: when the resolved fill price is non-positive after a live
entry submission, `place_market_entry_order` returns `False` with the state
unchanged — the market order was submitted but the symbol is not tracked
and no TP/SL placement happens — and a later reconciliation seeing the
position live absorbs it as a MANUAL record and tracks it. -/
theorem c10_unresolved_fill_price_untracked (st : EngineState) (env : EntryEnv)
    (symbol side : String) (amount tp_dist sl_dist : ℚ)
    (h1 : st.is_halted = false) (h2 : symbol ∉ st.active_positions)
    (h3 : cooldownActive st env.now symbol = false)
    (hd : env.dry_run = false) (h4 : resolveAvgPrice env ≤ 0) :
    place_market_entry_order st env symbol side amount tp_dist sl_dist
      = (false, st, [ExchangeAction.createMarketOrder symbol side amount]) ∧
    symbol ∉ (place_market_entry_order st env symbol side amount
        tp_dist sl_dist).2.1.active_positions ∧
    (∀ (renv : ReconEnv) (pside : String) (c ep : ℚ),
      renv.dry_run = false → 0 < c →
        (⟨"MANUAL", symbol, ep, c, 0⟩ : TradeRecord)
            ∈ (check_active_positions_state st renv [⟨symbol, c, ep, pside⟩]).records ∧
        symbol ∈ (check_active_positions_state st renv
            [⟨symbol, c, ep, pside⟩]).active_positions) := by
  have hmain := place_market_fillfail_spec st env symbol side amount tp_dist
    sl_dist h1 h2 h3 h4
  rw [if_neg (by simp [hd])] at hmain
  exact ⟨hmain, by rw [hmain]; exact h2,
    fun renv pside c ep hrd hc =>
      checkActive_absorbs_manual st renv symbol pside c ep hrd hc h2⟩

/-- Witness for C10: an entry on DOGE whose order reports average price 0
with no own-trades to fall back on. -/
theorem c10_unresolved_fill_price_untracked_witness :
    place_market_entry_order initState ⟨false, 0, 0, none, 7, id, true⟩
        "DOGE/USDT:USDT" "buy" 1 1 1
      = (false, initState,
         [ExchangeAction.createMarketOrder "DOGE/USDT:USDT" "buy" 1]) ∧
    (⟨"MANUAL", "DOGE/USDT:USDT", 3, 2, 0⟩ : TradeRecord)
      ∈ (check_active_positions_state initState ⟨false, 0, 15, fun _ => (0, 0, 0)⟩
          [⟨"DOGE/USDT:USDT", 2, 3, "long"⟩]).records ∧
    "DOGE/USDT:USDT" ∈ (check_active_positions_state initState
        ⟨false, 0, 15, fun _ => (0, 0, 0)⟩
        [⟨"DOGE/USDT:USDT", 2, 3, "long"⟩]).active_positions := by
  have h := c10_unresolved_fill_price_untracked initState
    ⟨false, 0, 0, none, 7, id, true⟩ "DOGE/USDT:USDT" "buy" 1 1 1
    rfl (by simp [initState]) rfl rfl (by norm_num [resolveAvgPrice])
  have habs := h.2.2 ⟨false, 0, 15, fun _ => (0, 0, 0)⟩ "long" 2 3 rfl
    (by norm_num)
  exact ⟨h.1, habs.1, habs.2⟩

end BinanceBot
